import Mathlib

/-!
Shallow embedding of the `mii` library (record extractor, field decoder,
timestamp decoder) and proofs about its scanner and decoders.

Bytes are modelled as `Nat` values (with `< 256` hypotheses where byte-ness
matters); byte strings are `List Nat`; decoded text is a list of Unicode
code points (`List Nat`); datetimes are seconds since the Unix epoch.
-/

namespace Mii

/-- Variant descriptor: the per-variant constants carried by `MiiType`
(`types.py`, used via `mii_type.SOURCE/OFFSET/SIZE/LIMIT/PADDING/PREFIX`
in `extractor.py`).  `PREF` models the `PREFIX` field. -/
structure MiiType where
  SOURCE : String
  OFFSET : Nat
  SIZE : Nat
  LIMIT : Nat
  PADDING : List Nat
  PREF : String

/-- The all-zero record `empty_mii = bytearray(mii_type.SIZE)`. -/
def emptyMii (t : MiiType) : List Nat := List.replicate t.SIZE 0

/-- Most-significant-first decimal digits, with enough fuel to terminate
(`n < fuel` makes the result independent of the fuel). -/
def decDigitsAux : Nat → Nat → List Nat
  | 0, _ => []
  | fuel + 1, n =>
    if n < 10 then [n] else decDigitsAux fuel (n / 10) ++ [n % 10]

/-- Python `f"<n>"`: most-significant-first decimal digits of `n`. -/
def decDigits (n : Nat) : List Nat := decDigitsAux (n + 1) n

/-- Decimal digit value to its character. -/
def digitChar (d : Nat) : Char := Char.ofNat (48 + d)

/-- Python `f"{n:05d}"`: decimal representation zero-padded to width 5. -/
def zeroPad5 (n : Nat) : String :=
  let ds := decDigits n
  String.mk ((List.replicate (5 - ds.length) 0 ++ ds).map digitChar)

/-- Python `str(n)` / `f"{n}"`: plain decimal representation. -/
def natDecString (n : Nat) : String :=
  String.mk ((decDigits n).map digitChar)

/-- Output filename `f"{mii_type.PREFIX}{mii_count:05d}.mii"`. -/
def miiFileName (t : MiiType) (n : Nat) : String :=
  t.PREF ++ zeroPad5 n ++ ".mii"

/-- Joined output path `output_dir / mii_name`. -/
def miiPath (outputDir : String) (t : MiiType) (n : Nat) : String :=
  outputDir ++ "/" ++ miiFileName t n

/-- Successive `infile.read(size)` calls from the stream: the maximal list of
full `size`-byte chunks; a final short read (fewer than `size` bytes) is not a
chunk, matching the `len(mii_data) < mii_type.SIZE` stop condition. -/
def chunksExactAux : Nat → Nat → List Nat → List (List Nat)
  | 0, _, _ => []
  | fuel + 1, size, bytes =>
    if 0 < size ∧ size ≤ bytes.length then
      bytes.take size :: chunksExactAux fuel size (bytes.drop size)
    else []

/-- All full `size`-byte chunks of `bytes`, in order (fuel variant above;
`bytes.length + 1` fuel always suffices since each chunk consumes at least
one byte). -/
def chunksExact (size : Nat) (bytes : List Nat) : List (List Nat) :=
  chunksExactAux (bytes.length + 1) size bytes

/-- The `while is_active and mii_count < mii_type.LIMIT` loop of
`extract_miis_from_type`, over the pre-read record chunks: returns the
(filename, written bytes) pairs in write order. -/
def scanLoop (t : MiiType) : List (List Nat) → Nat → List (String × List Nat)
  | [], _ => []
  | r :: rest, n =>
    if t.LIMIT ≤ n then []
    else if r = emptyMii t then scanLoop t rest n
    else (miiFileName t n, r ++ t.PADDING) :: scanLoop t rest (n + 1)

/-- A filesystem side effect performed by the extractor. -/
inductive FsEffect where
  | mkdirOut : FsEffect
  | writeFile : String → List Nat → FsEffect
  deriving DecidableEq

/-- `extract_miis_from_type`: given whether the source file exists and its
bytes, returns the filesystem effects in program order together with the
result (`MiiExtractionError` message, or the list of extracted paths). -/
def extract_miis_from_type (sourceExists : Bool) (sourceBytes : List Nat)
    (t : MiiType) (outputDir : String) :
    List FsEffect × Except String (List String) :=
  if sourceExists = false then
    ([], Except.error (t.SOURCE ++ " not found"))
  else
    let recs := chunksExact t.SIZE (sourceBytes.drop t.OFFSET)
    let outs := scanLoop t recs 0
    (FsEffect.mkdirOut ::
        outs.map (fun p => FsEffect.writeFile (outputDir ++ "/" ++ p.1) p.2),
      Except.ok (outs.map (fun p => outputDir ++ "/" ++ p.1)))

/-! ## Field decoder (`reader.py`, `MiiFileReader`) -/

/-- The fixed color table of `MiiFileReader.__init__`. -/
def colors : List String :=
  ["Red", "Orange", "Yellow", "Green", "DarkGreen", "Blue",
   "LightBlue", "Pink", "Purple", "Brown", "White", "Black"]

/-- `string_data.find(b"\x00\x00")`: index of the first double-zero byte
pair, scanning every byte offset. -/
def findDoubleZero : List Nat → Option Nat
  | a :: b :: rest =>
    if a = 0 ∧ b = 0 then some 0
    else (findDoubleZero (b :: rest)).map (· + 1)
  | _ => none

/-- Big-endian byte pairs to 16-bit code units; `none` on odd length
(Python `decode("utf-16be")` fails on truncated data). -/
def bytesToUnits : List Nat → Option (List Nat)
  | [] => some []
  | [_] => none
  | a :: b :: rest => (bytesToUnits rest).map (fun us => (a * 256 + b) :: us)

/-- 16-bit code units to code points, with strict surrogate handling: a high
surrogate must be followed by a low surrogate (combined into one astral code
point); any unpaired surrogate is a decode error, as in Python's strict
`decode("utf-16be")`. -/
def unitsToCodepoints : List Nat → Option (List Nat)
  | [] => some []
  | u :: rest =>
    if 0xD800 ≤ u ∧ u ≤ 0xDBFF then
      match rest with
      | [] => none
      | v :: rest2 =>
        if 0xDC00 ≤ v ∧ v ≤ 0xDFFF then
          (unitsToCodepoints rest2).map
            (fun cs => (0x10000 + (u - 0xD800) * 0x400 + (v - 0xDC00)) :: cs)
        else none
    else if 0xDC00 ≤ u ∧ u ≤ 0xDFFF then none
    else (unitsToCodepoints rest).map (fun cs => u :: cs)

/-- `bytes.decode("utf-16be")` with strict errors. -/
def utf16beDecode (bs : List Nat) : Option (List Nat) :=
  (bytesToUnits bs).bind unitsToCodepoints

/-- `str.rstrip("\x00")`: drop trailing NUL code points. -/
def rstripNul (cs : List Nat) : List Nat :=
  (cs.reverse.dropWhile (· = 0)).reverse

/-- `MiiFileReader.read_string(offset, length)`: slice, truncate just after
the first double-zero pair (moving the boundary back one byte when the pair
is at an odd offset), decode UTF-16BE, strip trailing NULs.  `none` when the
decode raises `UnicodeDecodeError`. -/
def read_string (data : List Nat) (offset length : Nat) : Option (List Nat) :=
  let string_data := (data.drop offset).take length
  let truncated :=
    match findDoubleZero string_data with
    | some p =>
      let p' := if p % 2 = 1 then p - 1 else p
      string_data.take (p' + 2)
    | none => string_data
  (utf16beDecode truncated).map rstripNul

/-- `format(b, "08b")` for a byte: its eight bits, most significant first. -/
def bits8 (b : Nat) : List Nat :=
  [b / 128 % 2, b / 64 % 2, b / 32 % 2, b / 16 % 2,
   b / 8 % 2, b / 4 % 2, b / 2 % 2, b % 2]

/-- `int(s, 2)` for a most-significant-first bit list. -/
def bitsToNat (bits : List Nat) : Nat :=
  bits.foldl (fun acc b => acc * 2 + b) 0

/-- `MiiFileReader.read_mii_metadata`: the five bit-packed fields
`[is_girl, birth_month, birth_day, favorite_color, is_favorite]` taken from
the 16-bit binary string of the record's first two bytes. -/
def read_mii_metadata (data : List Nat) : List Nat :=
  let binary_str := ((data.take 2).map bits8).flatten
  [bitsToNat ((binary_str.drop 1).take 1),
   bitsToNat ((binary_str.drop 2).take 4),
   bitsToNat ((binary_str.drop 6).take 5),
   bitsToNat ((binary_str.drop 11).take 4),
   bitsToNat ((binary_str.drop 15).take 1)]

/-- `MiiFileReader.read_mii_id`: bytes 24–28. -/
def read_mii_id (data : List Nat) : List Nat :=
  (data.drop 24).take 4

/-- `MiiFileReader.get_color_name`. -/
def get_color_name (color_index : Nat) : String :=
  match colors.get? color_index with
  | some c => c
  | none => "Unknown (" ++ natDecString color_index ++ ")"

/-- `bytes.hex()`: most-significant-first hex digit values, two per byte. -/
def hexDigits (bs : List Nat) : List Nat :=
  bs.flatMap (fun b => [b / 16, b % 16])

/-- Upper-case hex digit character for a digit value. -/
def hexCharUpper (d : Nat) : Char :=
  if d < 10 then Char.ofNat (48 + d) else Char.ofNat (55 + d)

/-- `bytes.hex().upper()` as a string. -/
def hexUpperString (bs : List Nat) : String :=
  String.mk ((hexDigits bs).map hexCharUpper)

/-- Code points of a Lean string literal (for the default name values). -/
def strCodes (s : String) : List Nat := s.data.map Char.toNat

/-- The dictionary `MiiFileReader.read_all_metadata` builds. -/
structure DecodedMetadata where
  mii_name : List Nat
  creator_name : List Nat
  is_girl : Nat
  gender : String
  birth_month : Nat
  birth_day : Nat
  birthday : String
  favorite_color : String
  favorite_color_index : Nat
  is_favorite : Nat
  mii_id : String
  deriving DecidableEq

/-- `MiiFileReader.read_all_metadata`: composes the field reads; `none`
exactly when one of the string decodes raises. -/
def read_all_metadata (data : List Nat) : Option DecodedMetadata :=
  match read_string data 2 20, read_string data 54 20 with
  | some mii_name, some creator_name =>
    let metadata := read_mii_metadata data
    let m0 := metadata.getD 0 0
    let m1 := metadata.getD 1 0
    let m2 := metadata.getD 2 0
    let m3 := metadata.getD 3 0
    let m4 := metadata.getD 4 0
    some
      { mii_name := if mii_name = [] then strCodes "Unnamed" else mii_name
        creator_name :=
          if creator_name = [] then strCodes "Unknown" else creator_name
        is_girl := m0
        gender := if m0 ≠ 0 then "Female" else "Male"
        birth_month := m1
        birth_day := m2
        birthday :=
          if m1 ≠ 0 ∧ m2 ≠ 0 then
            natDecString m1 ++ "/" ++ natDecString m2
          else "Not set"
        favorite_color := get_color_name m3
        favorite_color_index := m3
        is_favorite := m4
        mii_id := hexUpperString (read_mii_id data) }
  | _, _ => none

/-! ## Timestamp decoder (`timestamp.py`) -/

/-- `get_mii_mode`: `true` for a 74-byte Wii record, `false` for a 92-byte
3DS/WiiU record, otherwise a `ValueError` carrying the filename and the
offending size. -/
def get_mii_mode (filename : String) (file_size : Nat) :
    Except (String × Nat) Bool :=
  if file_size = 74 then Except.ok true
  else if file_size = 92 then Except.ok false
  else Except.error (filename, file_size)

/-- `int(s, 16)` for a most-significant-first hex digit list. -/
def hexToNat (ds : List Nat) : Nat :=
  ds.foldl (fun acc d => acc * 16 + d) 0

/-- `get_mii_seconds`: seek to `0x18` (Wii) or `0xC` (3DS/WiiU), read 4
bytes, take their 8-hex-digit string, drop the first digit, parse the rest,
multiply by 4 (Wii) or 2 (3DS/WiiU). -/
def get_mii_seconds (data : List Nat) (is_wii_mii : Bool) : Nat :=
  let multiplier := if is_wii_mii then 4 else 2
  let seek_pos := if is_wii_mii then 0x18 else 0xC
  let str_id := hexDigits ((data.drop seek_pos).take 4)
  let int_id := hexToNat (str_id.drop 1)
  int_id * multiplier

/-- Seconds from the Unix epoch of `datetime(2006, 1, 1)`. -/
def epoch2006 : Nat := 1136073600

/-- Seconds from the Unix epoch of `datetime(2010, 1, 1)`. -/
def epoch2010 : Nat := 1262304000

/-- `get_mii_datetime`: the mode's epoch shifted by the raw seconds
(datetimes represented as seconds from the Unix epoch). -/
def get_mii_datetime (seconds : Nat) (is_wii_mii : Bool) : Nat :=
  (if is_wii_mii then epoch2006 else epoch2010) + seconds

/-! ## Auxiliary definitions used to state the properties -/

/-- Big-endian double-byte encoding of a string of 16-bit code units; states
what it means for field bytes to "encode" a wide-character string. -/
def encodeUnits (cs : List Nat) : List Nat :=
  cs.flatMap (fun c => [c / 256, c % 256])

/-- Value of a most-significant-first decimal digit list. -/
def decVal (ds : List Nat) : Nat :=
  ds.foldl (fun acc d => acc * 10 + d) 0

/-- Inverse of `digitChar` on digit values. -/
def charToDigit (c : Char) : Nat := c.toNat - 48

/-- A 16-bit code unit that is not half of a surrogate pair. -/
def nonSurrogate (c : Nat) : Prop := ¬(0xD800 ≤ c ∧ c ≤ 0xDFFF)

instance (c : Nat) : Decidable (nonSurrogate c) := by
  unfold nonSurrogate; infer_instance

/-! ## Theorems -/

lemma scanLoop_of_limit_le (t : MiiType) (recs : List (List Nat)) (n : Nat)
    (h : t.LIMIT ≤ n) : scanLoop t recs n = [] := by
  cases recs with
  | nil => rfl
  | cons r rest => simp [scanLoop, h]

lemma scanLoop_length (t : MiiType) (recs : List (List Nat)) (n : Nat) :
    (scanLoop t recs n).length
      = min (t.LIMIT - n) (recs.countP (fun r => !decide (r = emptyMii t))) := by
  induction recs generalizing n with
  | nil => simp [scanLoop]
  | cons r rest ih =>
    by_cases h : t.LIMIT ≤ n
    · rw [scanLoop_of_limit_le t _ _ h]
      simp [Nat.sub_eq_zero_of_le h]
    · by_cases hr : r = emptyMii t
      · simp only [scanLoop, if_neg h, if_pos hr, List.countP_cons, hr]
        simpa using ih n
      · have htl := ih (n + 1)
        simp [scanLoop, h, hr, List.countP_cons]
        omega

lemma decVal_append_singleton (ds : List Nat) (d : Nat) :
    decVal (ds ++ [d]) = decVal ds * 10 + d := by
  simp [decVal, List.foldl_append]

lemma decVal_decDigitsAux (fuel : Nat) :
    ∀ n : Nat, n < fuel → decVal (decDigitsAux fuel n) = n := by
  induction fuel with
  | zero => omega
  | succ fuel ih =>
    intro n hn
    rw [decDigitsAux]
    by_cases h : n < 10
    · simp [h, decVal]
    · rw [if_neg h, decVal_append_singleton, ih (n / 10) (by omega)]
      omega

lemma decVal_decDigits (n : Nat) : decVal (decDigits n) = n :=
  decVal_decDigitsAux (n + 1) n (by omega)

lemma decDigitsAux_lt_ten (fuel : Nat) :
    ∀ n d : Nat, d ∈ decDigitsAux fuel n → d < 10 := by
  induction fuel with
  | zero => intro n d h; simp [decDigitsAux] at h
  | succ fuel ih =>
    intro n d h
    rw [decDigitsAux] at h
    by_cases hc : n < 10
    · rw [if_pos hc] at h; simp at h; omega
    · rw [if_neg hc] at h
      rcases List.mem_append.mp h with h1 | h2
      · exact ih _ _ h1
      · simp at h2; omega

lemma decVal_replicate_zero (k : Nat) (ds : List Nat) :
    decVal (List.replicate k 0 ++ ds) = decVal ds := by
  induction k with
  | zero => rfl
  | succ k ih => simpa [List.replicate_succ, decVal, List.foldl] using ih

lemma charToDigit_digitChar (d : Nat) (h : d < 10) :
    charToDigit (digitChar d) = d := by
  interval_cases d <;> decide

lemma map_digitChar_inj (l1 l2 : List Nat) (h1 : ∀ d ∈ l1, d < 10)
    (h2 : ∀ d ∈ l2, d < 10) (h : l1.map digitChar = l2.map digitChar) :
    l1 = l2 := by
  have hc := congrArg (List.map charToDigit) h
  simp only [List.map_map, Function.comp_def] at hc
  rw [List.map_congr_left (fun d hd => charToDigit_digitChar d (h1 d hd)),
    List.map_congr_left (fun d hd => charToDigit_digitChar d (h2 d hd))] at hc
  simpa using hc

lemma zeroPad5_inj : Function.Injective zeroPad5 := by
  intro m n h
  simp only [zeroPad5] at h
  have hdata :
      (List.replicate (5 - (decDigits m).length) 0 ++ decDigits m).map digitChar
        = (List.replicate (5 - (decDigits n).length) 0
            ++ decDigits n).map digitChar :=
    congrArg String.data h
  have hl := map_digitChar_inj _ _ ?_ ?_ hdata
  · have hv := congrArg decVal hl
    rwa [decVal_replicate_zero, decVal_replicate_zero,
      decVal_decDigits, decVal_decDigits] at hv
  · intro d hd
    rcases List.mem_append.mp hd with h1 | h1
    · rw [List.eq_of_mem_replicate h1]; omega
    · exact decDigitsAux_lt_ten _ _ _ h1
  · intro d hd
    rcases List.mem_append.mp hd with h1 | h1
    · rw [List.eq_of_mem_replicate h1]; omega
    · exact decDigitsAux_lt_ten _ _ _ h1

lemma miiPath_inj (outputDir : String) (t : MiiType) :
    Function.Injective (miiPath outputDir t) := by
  intro m n h
  apply zeroPad5_inj
  have hd := congrArg String.data h
  simp only [miiPath, miiFileName, String.data_append, List.append_assoc] at hd
  have h1 := List.append_cancel_left hd
  have h2 := List.append_cancel_left h1
  have h3 := List.append_cancel_left h2
  exact String.ext (List.append_cancel_right h3)

lemma chunksExactAux_mem_length (size : Nat) (fuel : Nat) :
    ∀ (bytes r : List Nat), r ∈ chunksExactAux fuel size bytes →
      r.length = size := by
  induction fuel with
  | zero => intro bytes r h; simp [chunksExactAux] at h
  | succ fuel ih =>
    intro bytes r h
    rw [chunksExactAux] at h
    by_cases hc : 0 < size ∧ size ≤ bytes.length
    · rw [if_pos hc] at h
      rcases List.mem_cons.mp h with h1 | h2
      · rw [h1, List.length_take]; omega
      · exact ih _ _ h2
    · rw [if_neg hc] at h; cases h

lemma scanLoop_mem (t : MiiType) (recs : List (List Nat)) (n : Nat)
    (p : String × List Nat) (hp : p ∈ scanLoop t recs n) :
    ∃ r, r ∈ recs ∧ r ≠ emptyMii t ∧ p.2 = r ++ t.PADDING ∧
      ∃ k, p.1 = miiFileName t k := by
  induction recs generalizing n with
  | nil => simp [scanLoop] at hp
  | cons r rs ih =>
    by_cases h : t.LIMIT ≤ n
    · rw [scanLoop_of_limit_le t _ _ h] at hp; cases hp
    · by_cases hr : r = emptyMii t
      · rw [show scanLoop t (r :: rs) n = scanLoop t rs n from by
            simp [scanLoop, h, hr]] at hp
        obtain ⟨r', a1, a2, a3, a4⟩ := ih n hp
        exact ⟨r', List.mem_cons_of_mem _ a1, a2, a3, a4⟩
      · rw [show scanLoop t (r :: rs) n
              = (miiFileName t n, r ++ t.PADDING) :: scanLoop t rs (n + 1)
            from by simp [scanLoop, h, hr]] at hp
        rcases List.mem_cons.mp hp with h1 | h2
        · exact ⟨r, List.mem_cons_self r rs, hr, by rw [h1], n, by rw [h1]⟩
        · obtain ⟨r', a1, a2, a3, a4⟩ := ih (n + 1) h2
          exact ⟨r', List.mem_cons_of_mem _ a1, a2, a3, a4⟩

lemma scanLoop_names (t : MiiType) (recs : List (List Nat)) (n : Nat) :
    (scanLoop t recs n).map Prod.fst
      = (List.range (scanLoop t recs n).length).map
          (fun i => miiFileName t (n + i)) := by
  induction recs generalizing n with
  | nil => rfl
  | cons r rs ih =>
    by_cases h : t.LIMIT ≤ n
    · rw [scanLoop_of_limit_le t _ _ h]; rfl
    · by_cases hr : r = emptyMii t
      · rw [show scanLoop t (r :: rs) n = scanLoop t rs n from by
            simp [scanLoop, h, hr]]
        exact ih n
      · rw [show scanLoop t (r :: rs) n
              = (miiFileName t n, r ++ t.PADDING) :: scanLoop t rs (n + 1)
            from by simp [scanLoop, h, hr]]
        simp only [List.map_cons, List.length_cons, List.range_succ_eq_map,
          List.map_map]
        refine congrArg₂ _ (by rw [Nat.add_zero]) ?_
        rw [ih (n + 1)]
        refine List.map_congr_left (fun i _ => ?_)
        simp only [Function.comp]
        rw [Nat.add_assoc, Nat.add_comm 1 i]

/-- C2: a record that is byte-for-byte equal to the zero-filled buffer is
skipped: no file is written for it, the sequence counter is unchanged, it
does not count toward the limit, and scanning continues; consequently the
scan of any record sequence equals the scan of the same sequence with all
empty slots removed (same emitted list, same filenames). -/
theorem scan_skips_empty_records (t : MiiType) (rest recs : List (List Nat))
    (n : Nat) :
    scanLoop t (emptyMii t :: rest) n = scanLoop t rest n ∧
    scanLoop t recs n
      = scanLoop t (recs.filter (fun r => !decide (r = emptyMii t))) n := by
  constructor
  · by_cases h : t.LIMIT ≤ n
    · rw [scanLoop_of_limit_le t _ _ h, scanLoop_of_limit_le t _ _ h]
    · simp [scanLoop, h]
  · induction recs generalizing n with
    | nil => rfl
    | cons r rs ih =>
      by_cases hr : r = emptyMii t
      · by_cases h : t.LIMIT ≤ n
        · rw [scanLoop_of_limit_le t _ _ h, scanLoop_of_limit_le t _ _ h]
        · simp only [List.filter_cons, hr, decide_True, Bool.not_true,
            if_neg (by simp : ¬((false : Bool) = true))]
          rw [show scanLoop t (emptyMii t :: rs) n = scanLoop t rs n by
            simp [scanLoop, h]]
          exact ih n
      · by_cases h : t.LIMIT ≤ n
        · rw [scanLoop_of_limit_le t _ _ h, scanLoop_of_limit_le t _ _ h]
        · simp only [List.filter_cons]
          rw [if_pos (by simp [hr])]
          simp only [scanLoop, if_neg h, if_neg hr]
          rw [ih (n + 1)]

/-- C3: the scanner emits `min (recordLimit - start) (number of non-empty
records)` files — so the loop runs until either the emitted count reaches
the limit or the records are exhausted (a short read), and in the latter
case the result is still a normal `Except.ok`; in particular the number of
emitted files never exceeds `recordLimit`. -/
theorem scan_respects_limit (t : MiiType) (src : List Nat)
    (outputDir : String) (recs : List (List Nat)) (n : Nat) :
    (scanLoop t recs n).length
      = min (t.LIMIT - n) (recs.countP (fun r => !decide (r = emptyMii t))) ∧
    ∃ files,
      (extract_miis_from_type true src t outputDir).2 = Except.ok files ∧
      files.length ≤ t.LIMIT := by
  refine ⟨scanLoop_length t recs n, ?_⟩
  refine ⟨_, rfl, ?_⟩
  rw [List.length_map, scanLoop_length]
  omega

/-- C9: if the source file does not exist, `extract_miis_from_type` raises
`MiiExtractionError` before performing any side effect: the effect trace is
empty (no output directory creation, no file writes) and the result is the
error. -/
theorem extract_missing_source_no_effects (src : List Nat) (t : MiiType)
    (outputDir : String) :
    extract_miis_from_type false src t outputDir
      = ([], Except.error (t.SOURCE ++ " not found")) := rfl

/-- C7: `get_mii_mode` returns the Wii mode (`true`) for byte length 74 and
the 3DS/WiiU mode (`false`) for byte length 92; every other length (such as
50) yields a `ValueError` carrying the offending length, and the call fails
exactly when the length is neither 74 nor 92. -/
theorem get_mii_mode_spec (filename : String) (n : Nat)
    (h74 : n ≠ 74) (h92 : n ≠ 92) :
    get_mii_mode filename 74 = Except.ok true ∧
    get_mii_mode filename 92 = Except.ok false ∧
    get_mii_mode filename n = Except.error (filename, n) ∧
    ∀ m : Nat,
      (∃ e, get_mii_mode filename m = Except.error e) ↔ (m ≠ 74 ∧ m ≠ 92) := by
  refine ⟨rfl, rfl, ?_, ?_⟩
  · simp [get_mii_mode, h74, h92]
  · intro m
    by_cases hm74 : m = 74
    · subst hm74; simp [get_mii_mode]
    · by_cases hm92 : m = 92
      · subst hm92; simp [get_mii_mode]
      · simp [get_mii_mode, hm74, hm92]

/-- Witness for C7 at the concrete length 50. -/
theorem get_mii_mode_spec_witness :
    get_mii_mode "RFL_DB.dat" 74 = Except.ok true ∧
    get_mii_mode "RFL_DB.dat" 92 = Except.ok false ∧
    get_mii_mode "RFL_DB.dat" 50 = Except.error ("RFL_DB.dat", 50) ∧
    ∀ m : Nat,
      (∃ e, get_mii_mode "RFL_DB.dat" m = Except.error e) ↔
        (m ≠ 74 ∧ m ≠ 92) :=
  get_mii_mode_spec "RFL_DB.dat" 50 (by decide) (by decide)

/-- C4: for a record starting with bytes `b0 b1` forming the 16-bit
big-endian value `v = b0 * 256 + b1` (bit 0 being the most significant bit
of `b0`), `read_mii_metadata` yields `is_girl` = bit 1, `birth_month` =
bits 2–5, `birth_day` = bits 6–10, `favorite_color` = bits 11–14 and
`is_favorite` = bit 15 (`0`/`1` encoding false/true); header `0x0000` gives
`[0,0,0,0,0]` and header `0xFFFF` gives `[1,15,31,15,1]`. -/
theorem read_mii_metadata_spec (b0 b1 : Nat) (rest : List Nat)
    (h0 : b0 < 256) (h1 : b1 < 256) :
    read_mii_metadata (b0 :: b1 :: rest) =
      [(b0 * 256 + b1) / 2 ^ 14 % 2,
       (b0 * 256 + b1) / 2 ^ 10 % 2 ^ 4,
       (b0 * 256 + b1) / 2 ^ 5 % 2 ^ 5,
       (b0 * 256 + b1) / 2 % 2 ^ 4,
       (b0 * 256 + b1) % 2] ∧
    read_mii_metadata [0x00, 0x00] = [0, 0, 0, 0, 0] ∧
    read_mii_metadata [0xFF, 0xFF] = [1, 15, 31, 15, 1] := by
  refine ⟨?_, by decide, by decide⟩
  simp only [read_mii_metadata, bits8, bitsToNat, List.take_cons,
    List.map_cons, List.map_nil, List.flatten, List.append_nil,
    List.take_nil, List.drop, List.take, List.foldl, List.cons_append,
    List.nil_append, List.cons.injEq, and_true]
  omega

/-- Witness for C4 at the concrete header bytes `0x5C 0xAB`. -/
theorem read_mii_metadata_spec_witness :
    read_mii_metadata [0x5C, 0xAB] =
      [(0x5C * 256 + 0xAB) / 2 ^ 14 % 2,
       (0x5C * 256 + 0xAB) / 2 ^ 10 % 2 ^ 4,
       (0x5C * 256 + 0xAB) / 2 ^ 5 % 2 ^ 5,
       (0x5C * 256 + 0xAB) / 2 % 2 ^ 4,
       (0x5C * 256 + 0xAB) % 2] ∧
    read_mii_metadata [0x00, 0x00] = [0, 0, 0, 0, 0] ∧
    read_mii_metadata [0xFF, 0xFF] = [1, 15, 31, 15, 1] :=
  read_mii_metadata_spec 0x5C 0xAB [] (by decide) (by decide)

/-- C8: the raw seconds count of a 4-byte timestamp field at offset `0x18`
(Wii) or `0xC` (3DS/WiiU) equals the 32-bit big-endian value with its top 4
bits discarded (`mod 2 ^ 28`, i.e. the last 7 hex digits) times 4 (Wii) or
2 (3DS/WiiU); the absolute time is the mode's epoch (2006-01-01 for Wii,
2010-01-01 for 3DS/WiiU) plus the raw seconds; in particular last-7-digit
value 100 in Wii mode gives 400 seconds and 2006-01-01T00:00:00 + 400 s. -/
theorem get_mii_seconds_spec (pre24 pre12 rest24 rest12 : List Nat)
    (b0 b1 b2 b3 : Nat)
    (hp24 : pre24.length = 0x18) (hp12 : pre12.length = 0xC)
    (hb0 : b0 < 256) (hb1 : b1 < 256) (hb2 : b2 < 256) (hb3 : b3 < 256) :
    get_mii_seconds (pre24 ++ [b0, b1, b2, b3] ++ rest24) true
        = ((b0 * 2 ^ 24 + b1 * 2 ^ 16 + b2 * 2 ^ 8 + b3) % 2 ^ 28) * 4 ∧
    get_mii_seconds (pre12 ++ [b0, b1, b2, b3] ++ rest12) false
        = ((b0 * 2 ^ 24 + b1 * 2 ^ 16 + b2 * 2 ^ 8 + b3) % 2 ^ 28) * 2 ∧
    (∀ s : Nat, get_mii_datetime s true = epoch2006 + s ∧
        get_mii_datetime s false = epoch2010 + s) ∧
    get_mii_seconds (List.replicate 0x18 0 ++ [0, 0, 0, 100]) true = 400 ∧
    get_mii_datetime 400 true = epoch2006 + 400 := by
  refine ⟨?_, ?_, fun s => ⟨rfl, rfl⟩, by decide, rfl⟩
  · rw [List.append_assoc]
    have hdrop : List.drop 0x18 (pre24 ++ (b0 :: b1 :: b2 :: b3 :: rest24))
        = b0 :: b1 :: b2 :: b3 :: rest24 := by
      rw [← hp24]; exact List.drop_left _ _
    simp [get_mii_seconds, hdrop, hexDigits, hexToNat, List.take, List.foldl]
    omega
  · rw [List.append_assoc]
    have hdrop : List.drop 0xC (pre12 ++ (b0 :: b1 :: b2 :: b3 :: rest12))
        = b0 :: b1 :: b2 :: b3 :: rest12 := by
      rw [← hp12]; exact List.drop_left _ _
    simp [get_mii_seconds, hdrop, hexDigits, hexToNat, List.take, List.foldl]
    omega

/-- Witness for C8 at the concrete field bytes `00 00 00 64`. -/
theorem get_mii_seconds_spec_witness :
    get_mii_seconds (List.replicate 0x18 0 ++ [0, 0, 0, 100] ++ []) true
        = ((0 * 2 ^ 24 + 0 * 2 ^ 16 + 0 * 2 ^ 8 + 100) % 2 ^ 28) * 4 ∧
    get_mii_seconds (List.replicate 0xC 0 ++ [0, 0, 0, 100] ++ []) false
        = ((0 * 2 ^ 24 + 0 * 2 ^ 16 + 0 * 2 ^ 8 + 100) % 2 ^ 28) * 2 ∧
    (∀ s : Nat, get_mii_datetime s true = epoch2006 + s ∧
        get_mii_datetime s false = epoch2010 + s) ∧
    get_mii_seconds (List.replicate 0x18 0 ++ [0, 0, 0, 100]) true = 400 ∧
    get_mii_datetime 400 true = epoch2006 + 400 :=
  get_mii_seconds_spec (List.replicate 0x18 0) (List.replicate 0xC 0) [] []
    0 0 0 100 (by decide) (by decide) (by decide) (by decide) (by decide)
    (by decide)

lemma filterMap_writeFile_names (outputDir : String)
    (l : List (String × List Nat)) :
    (l.map (fun p => FsEffect.writeFile (outputDir ++ "/" ++ p.1)
        p.2)).filterMap
      (fun e => match e with
        | FsEffect.writeFile nm _ => some nm
        | FsEffect.mkdirOut => none)
      = l.map (fun p => outputDir ++ "/" ++ p.1) := by
  induction l with
  | nil => rfl
  | cons p ps ih => simp [List.filterMap_cons, ih]

/-- C10: the returned list is exactly the written paths in write order with
no duplicates: it equals `(range length).map (k ↦ outputDir/prefix
++ pad5(k) ++ ".mii")`, so the sequence numbers are contiguous from 0 and
the length equals the final counter; the names extracted from the write
effects, in order, are the returned list. -/
theorem extract_returns_written_paths (src : List Nat) (t : MiiType)
    (outputDir : String) :
    ∃ files,
      (extract_miis_from_type true src t outputDir).2 = Except.ok files ∧
      files = (List.range files.length).map (fun k => miiPath outputDir t k) ∧
      files.Nodup ∧
      (extract_miis_from_type true src t outputDir).1.filterMap
        (fun e => match e with
          | FsEffect.writeFile nm _ => some nm
          | FsEffect.mkdirOut => none) = files := by
  have hfiles : ((scanLoop t (chunksExact t.SIZE (src.drop t.OFFSET)) 0).map
        (fun p => outputDir ++ "/" ++ p.1))
      = (List.range ((scanLoop t (chunksExact t.SIZE (src.drop t.OFFSET))
            0).map (fun p => outputDir ++ "/" ++ p.1)).length).map
          (fun k => miiPath outputDir t k) := by
    rw [show (fun p : String × List Nat => outputDir ++ "/" ++ p.1)
          = (fun nm => outputDir ++ "/" ++ nm) ∘ Prod.fst from rfl,
      ← List.map_map, scanLoop_names, List.map_map]
    simp only [List.length_map, List.length_range]
    refine List.map_congr_left (fun i _ => ?_)
    simp [miiPath, Function.comp, Nat.zero_add]
  refine ⟨_, rfl, hfiles, ?_, ?_⟩
  · rw [hfiles]
    exact (List.nodup_range _).map (miiPath_inj outputDir t)
  · show (FsEffect.mkdirOut ::
        (scanLoop t (chunksExact t.SIZE (src.drop t.OFFSET)) 0).map
          (fun p => FsEffect.writeFile (outputDir ++ "/" ++ p.1)
            p.2)).filterMap _ = _
    simp only [List.filterMap_cons]
    exact filterMap_writeFile_names outputDir _

/-- C1: every non-empty record the scanner emits is written as exactly the
`recordSize` bytes read from the source followed by `paddingBytes`
verbatim: the written content's first `recordSize` bytes equal the raw
record, its remaining bytes equal `paddingBytes`, and its total length is
`recordSize + len(paddingBytes)`. -/
theorem emitted_file_bytes (src : List Nat) (t : MiiType)
    (outputDir : String) (nm : String) (content : List Nat)
    (hmem : FsEffect.writeFile nm content
      ∈ (extract_miis_from_type true src t outputDir).1) :
    ∃ rec, rec ∈ chunksExact t.SIZE (src.drop t.OFFSET) ∧
      rec.length = t.SIZE ∧ rec ≠ emptyMii t ∧
      content = rec ++ t.PADDING ∧
      content.take t.SIZE = rec ∧
      content.drop t.SIZE = t.PADDING ∧
      content.length = t.SIZE + t.PADDING.length := by
  have hm : FsEffect.writeFile nm content
      ∈ FsEffect.mkdirOut ::
        ((scanLoop t (chunksExact t.SIZE (src.drop t.OFFSET)) 0).map
          (fun p => FsEffect.writeFile (outputDir ++ "/" ++ p.1) p.2)) := hmem
  rcases List.mem_cons.mp hm with h1 | h2
  · cases h1
  · obtain ⟨p, hp, he⟩ := List.mem_map.mp h2
    obtain ⟨r, hr1, hr2, hr3, -⟩ := scanLoop_mem t _ 0 p hp
    have hlen : r.length = t.SIZE :=
      chunksExactAux_mem_length t.SIZE _ _ r hr1
    rw [FsEffect.writeFile.injEq] at he
    have hcontent : content = r ++ t.PADDING := by rw [← he.2, hr3]
    refine ⟨r, hr1, hlen, hr2, hcontent, ?_, ?_, ?_⟩
    · rw [hcontent, ← hlen, List.take_left]
    · rw [hcontent, ← hlen, List.drop_left]
    · rw [hcontent, List.length_append, hlen]

/-- Witness for C1 at a concrete source, descriptor and emitted file. -/
theorem emitted_file_bytes_witness :
    ∃ rec, rec ∈ chunksExact 2 (List.drop 0 [1, 2]) ∧
      rec.length = 2 ∧ rec ≠ emptyMii ⟨"db", 0, 2, 3, [9], "P"⟩ ∧
      ([1, 2, 9] : List Nat) = rec ++ [9] ∧
      ([1, 2, 9] : List Nat).take 2 = rec ∧
      ([1, 2, 9] : List Nat).drop 2 = [9] ∧
      ([1, 2, 9] : List Nat).length = 2 + [9].length :=
  emitted_file_bytes [1, 2] ⟨"db", 0, 2, 3, [9], "P"⟩ "out" "out/P00000.mii"
    [1, 2, 9] (by decide)

lemma findDoubleZero_cons_ne (a b : Nat) (rest : List Nat)
    (h : ¬(a = 0 ∧ b = 0)) :
    findDoubleZero (a :: b :: rest)
      = (findDoubleZero (b :: rest)).map (· + 1) := by
  rw [findDoubleZero, if_neg h]

lemma findDoubleZero_cons_zero (rest : List Nat) :
    findDoubleZero (0 :: 0 :: rest) = some 0 := by
  rw [findDoubleZero, if_pos ⟨rfl, rfl⟩]

lemma unitsToCodepoints_cons_ns (u : Nat) (rest : List Nat)
    (h : nonSurrogate u) :
    unitsToCodepoints (u :: rest)
      = (unitsToCodepoints rest).map (fun cs => u :: cs) := by
  have hhi : ¬(0xD800 ≤ u ∧ u ≤ 0xDBFF) := by unfold nonSurrogate at h; omega
  have hlo : ¬(0xDC00 ≤ u ∧ u ≤ 0xDFFF) := by unfold nonSurrogate at h; omega
  rw [unitsToCodepoints.eq_def]
  simp only [if_neg hhi, if_neg hlo]

lemma read_string_eq_of_find (data : List Nat) (offset length p : Nat)
    (hp : findDoubleZero ((data.drop offset).take length) = some p) :
    read_string data offset length
      = (utf16beDecode (((data.drop offset).take length).take
          ((if p % 2 = 1 then p - 1 else p) + 2))).map rstripNul := by
  simp only [read_string]
  rw [hp]

/-- C6 counterexample: a 74-byte record whose name field begins with a lone
high surrogate (`D8 00` then zero fill) is truncated to the single code
unit `0xD800`, whose strict UTF-16BE decode fails (`UnicodeDecodeError` in
Python), so `read_all_metadata` does not return a value. -/
theorem read_all_metadata_cex :
    read_all_metadata ([0, 0, 0xD8, 0] ++ List.replicate 70 0) = none ∧
    ([0, 0, 0xD8, 0] ++ List.replicate 70 0).length = 74 := ⟨rfl, rfl⟩

/-- C6 amended: `read_all_metadata` returns a metadata value for every byte
sequence whose two (truncated) name-field slices decode as UTF-16BE — in
particular for any bytes with no unpaired surrogate in those fields; it
fails only when one of the two `read_string` decodes raises. -/
theorem read_all_metadata_succeeds (data : List Nat)
    (h1 : read_string data 2 20 ≠ none)
    (h2 : read_string data 54 20 ≠ none) :
    ∃ m, read_all_metadata data = some m := by
  rcases hx : read_string data 2 20 with _ | a
  · exact absurd hx h1
  · rcases hy : read_string data 54 20 with _ | b
    · exact absurd hy h2
    · exact ⟨_, by rw [read_all_metadata, hx, hy]⟩

/-- Witness for C6 (amended) at the all-zero 74-byte record. -/
theorem read_all_metadata_succeeds_witness :
    ∃ m, read_all_metadata (List.replicate 74 0) = some m :=
  read_all_metadata_succeeds (List.replicate 74 0) (by decide) (by decide)

/-- C5 counterexample: the 20-byte field encoding the three non-NUL
characters U+0100, U+0041, U+0041 followed by zero-fill has its first
double-zero byte pair at the odd offset 1 (low byte of the first character
and high byte of the second); `read_string` moves the boundary back, keeps
only the first character, and returns 1 character instead of the 3 encoded
ones. -/
theorem read_string_cex :
    encodeUnits [0x100, 0x41, 0x41] ++ List.replicate 14 0
      = [1, 0, 0, 0x41, 0, 0x41] ++ List.replicate 14 0 ∧
    (encodeUnits [0x100, 0x41, 0x41] ++ List.replicate 14 0).length = 20 ∧
    read_string (encodeUnits [0x100, 0x41, 0x41] ++ List.replicate 14 0)
        0 20 = some [0x100] ∧
    some [0x100] ≠ some [0x100, 0x41, 0x41] := by
  refine ⟨rfl, rfl, rfl, by decide⟩

/-- C5 amended: a 20-byte field encoding 3 non-NUL, non-surrogate
double-byte characters followed by zero-fill decodes to exactly those 3
characters with no trailing NULs, provided no double-zero byte pair occurs
before the third character's bytes (no pair straddling the first two
character boundaries); this includes the case where the first double-zero
pair falls at the odd offset 5 because the third character's low byte is
zero. -/
theorem read_string_three_chars (c0 c1 c2 : Nat)
    (h0 : 0 < c0) (h0w : c0 < 65536) (hs0 : nonSurrogate c0)
    (h1 : 0 < c1) (h1w : c1 < 65536) (hs1 : nonSurrogate c1)
    (h2 : 0 < c2) (h2w : c2 < 65536) (hs2 : nonSurrogate c2)
    (hx1 : ¬(c0 % 256 = 0 ∧ c1 / 256 = 0))
    (hx3 : ¬(c1 % 256 = 0 ∧ c2 / 256 = 0)) :
    read_string (encodeUnits [c0, c1, c2] ++ List.replicate 14 0) 0 20
      = some [c0, c1, c2] := by
  have hp0 : ¬(c0 / 256 = 0 ∧ c0 % 256 = 0) := by omega
  have hp2 : ¬(c1 / 256 = 0 ∧ c1 % 256 = 0) := by omega
  have hp4 : ¬(c2 / 256 = 0 ∧ c2 % 256 = 0) := by omega
  have hu6 : bytesToUnits [c0 / 256, c0 % 256, c1 / 256, c1 % 256,
      c2 / 256, c2 % 256] = some [c0, c1, c2] := by
    simp [bytesToUnits]; omega
  have hu8 : bytesToUnits [c0 / 256, c0 % 256, c1 / 256, c1 % 256,
      c2 / 256, c2 % 256, 0, 0] = some [c0, c1, c2, 0] := by
    simp [bytesToUnits]; omega
  have hcp3 : unitsToCodepoints [c0, c1, c2] = some [c0, c1, c2] := by
    rw [unitsToCodepoints_cons_ns _ _ hs0, unitsToCodepoints_cons_ns _ _ hs1,
      unitsToCodepoints_cons_ns _ _ hs2]
    rfl
  have hcp4 : unitsToCodepoints [c0, c1, c2, 0] = some [c0, c1, c2, 0] := by
    rw [unitsToCodepoints_cons_ns _ _ hs0, unitsToCodepoints_cons_ns _ _ hs1,
      unitsToCodepoints_cons_ns _ _ hs2,
      unitsToCodepoints_cons_ns _ _ (by decide)]
    rfl
  have hc2ne : c2 ≠ 0 := by omega
  have hr3 : rstripNul [c0, c1, c2] = [c0, c1, c2] := by
    simp [rstripNul, hc2ne]
  have hr4 : rstripNul [c0, c1, c2, 0] = [c0, c1, c2] := by
    simp [rstripNul, hc2ne]
  show read_string (c0 / 256 :: c0 % 256 :: c1 / 256 :: c1 % 256 ::
      c2 / 256 :: c2 % 256 ::
      ([0, 0, 0, 0, 0, 0, 0, 0, 0, 0, 0, 0, 0, 0] : List Nat)) 0 20
      = some [c0, c1, c2]
  by_cases hc2 : c2 % 256 = 0
  · have hfind : findDoubleZero (((c0 / 256 :: c0 % 256 :: c1 / 256 ::
        c1 % 256 :: c2 / 256 :: c2 % 256 ::
        ([0, 0, 0, 0, 0, 0, 0, 0, 0, 0, 0, 0, 0, 0] : List Nat)).drop
          0).take 20) = some 5 := by
      show findDoubleZero (c0 / 256 :: c0 % 256 :: c1 / 256 :: c1 % 256 ::
        c2 / 256 :: c2 % 256 ::
        ([0, 0, 0, 0, 0, 0, 0, 0, 0, 0, 0, 0, 0, 0] : List Nat)) = some 5
      rw [findDoubleZero_cons_ne _ _ _ hp0, findDoubleZero_cons_ne _ _ _ hx1,
        findDoubleZero_cons_ne _ _ _ hp2, findDoubleZero_cons_ne _ _ _ hx3,
        findDoubleZero_cons_ne _ _ _ hp4, hc2, findDoubleZero_cons_zero]
      rfl
    rw [read_string_eq_of_find _ _ _ _ hfind]
    rw [show ((((c0 / 256 :: c0 % 256 :: c1 / 256 :: c1 % 256 ::
        c2 / 256 :: c2 % 256 ::
        ([0, 0, 0, 0, 0, 0, 0, 0, 0, 0, 0, 0, 0, 0] : List Nat)).drop
          0).take 20).take ((if 5 % 2 = 1 then 5 - 1 else 5) + 2))
        = [c0 / 256, c0 % 256, c1 / 256, c1 % 256, c2 / 256, c2 % 256]
      from rfl]
    simp [utf16beDecode, hu6, hcp3, hr3]
  · have hp5 : ¬(c2 % 256 = 0 ∧ (0 : Nat) = 0) := fun h => hc2 h.1
    have hfind : findDoubleZero (((c0 / 256 :: c0 % 256 :: c1 / 256 ::
        c1 % 256 :: c2 / 256 :: c2 % 256 ::
        ([0, 0, 0, 0, 0, 0, 0, 0, 0, 0, 0, 0, 0, 0] : List Nat)).drop
          0).take 20) = some 6 := by
      show findDoubleZero (c0 / 256 :: c0 % 256 :: c1 / 256 :: c1 % 256 ::
        c2 / 256 :: c2 % 256 ::
        ([0, 0, 0, 0, 0, 0, 0, 0, 0, 0, 0, 0, 0, 0] : List Nat)) = some 6
      rw [findDoubleZero_cons_ne _ _ _ hp0, findDoubleZero_cons_ne _ _ _ hx1,
        findDoubleZero_cons_ne _ _ _ hp2, findDoubleZero_cons_ne _ _ _ hx3,
        findDoubleZero_cons_ne _ _ _ hp4, findDoubleZero_cons_ne _ _ _ hp5,
        findDoubleZero_cons_zero]
      rfl
    rw [read_string_eq_of_find _ _ _ _ hfind]
    rw [show ((((c0 / 256 :: c0 % 256 :: c1 / 256 :: c1 % 256 ::
        c2 / 256 :: c2 % 256 ::
        ([0, 0, 0, 0, 0, 0, 0, 0, 0, 0, 0, 0, 0, 0] : List Nat)).drop
          0).take 20).take ((if 6 % 2 = 1 then 6 - 1 else 6) + 2))
        = [c0 / 256, c0 % 256, c1 / 256, c1 % 256, c2 / 256, c2 % 256, 0, 0]
      from rfl]
    simp [utf16beDecode, hu8, hcp4, hr4]

/-- Witness for C5 (amended) at the concrete characters U+3042, U+3044,
U+0100 — the third character's low byte is zero, so the first double-zero
pair falls at the odd offset 5. -/
theorem read_string_three_chars_witness :
    read_string (encodeUnits [0x3042, 0x3044, 0x100] ++ List.replicate 14 0)
        0 20 = some [0x3042, 0x3044, 0x100] :=
  read_string_three_chars 0x3042 0x3044 0x100
    (by decide) (by decide) (by decide) (by decide) (by decide) (by decide)
    (by decide) (by decide) (by decide) (by decide) (by decide)

end Mii
